import Mathlib

/-!
Verification of the spyndex core: a catalog of spectral-index definitions,
a symbol resolver (positional params + keyword overrides + constant
defaults), a polymorphic arithmetic expression evaluator, and the batch
orchestrator `computeIndex` / `computeKernel`.

The repository snapshot ships only documentation (tutorials, reference
pages); the core module `spyndex/spyndex.py` itself is not among the
sources, so the resolver, evaluator and orchestrator below are modelled
from the specification, with the notebook traces (tutorial
`python_builtin.ipynb`) fixing the concrete observable behaviour: scalar
results come back bare, two names give a two-element list, list operands
raise the TypeError of the underlying type, integer inputs promote to
float under true division.

Caller-supplied values are dynamically typed Python-like values. Numeric
payloads are modelled as exact rationals.
-/

namespace Spyndex

/-- Modelled from the spec: a caller-supplied dynamic value. The evaluator
is polymorphic over "any arithmetic-capable type"; the tutorials exercise
Python ints, floats, lists and 1-D numpy arrays, which is the closed set
modelled here. Numeric payloads are exact rationals. -/
inductive PVal where
  | pint : Int → PVal
  | pfloat : Rat → PVal
  | plist : List Rat → PVal
  | parr : List Rat → PVal
  deriving DecidableEq

/-- The Python type name of a dynamic value, as it appears in TypeError
messages. -/
def PVal.typeName : PVal → String
  | .pint _ => "int"
  | .pfloat _ => "float"
  | .plist _ => "list"
  | .parr _ => "ndarray"

/-- A scalar number: Python int or float. -/
def PVal.isScalar : PVal → Bool
  | .pint _ => true
  | .pfloat _ => true
  | .plist _ => false
  | .parr _ => false

/-- Modelled from the spec error taxonomy (section 7) plus the errors the
underlying value types themselves raise (propagated unmodified). A
TypeError records the operator symbol and both operand type names, as in
the Python message `unsupported operand type(s)`. -/
inductive PyError where
  | unknownName : String → PyError
  | missingParameter : String → List String → PyError
  | nameError : String → PyError
  | typeError : String → String → String → PyError
  | zeroDivision : PyError
  | shapeMismatch : PyError
  | domainError : PyError
  deriving DecidableEq

/-- The five binary operators of formula strings. -/
inductive BinOp where
  | add | sub | mul | div | pow
  deriving DecidableEq

/-- Operator symbol, as used in TypeError messages. -/
def BinOp.symbol : BinOp → String
  | .add => "+"
  | .sub => "-"
  | .mul => "*"
  | .div => "/"
  | .pow => "**"

/-- Scalar (float-like) arithmetic on exact rationals. Division by zero
and zero to a negative power raise; a fractional exponent is outside the
rational model and surfaces as a domain error. -/
def scalarOp : BinOp → Rat → Rat → Except PyError Rat
  | .add, a, b => .ok (a + b)
  | .sub, a, b => .ok (a - b)
  | .mul, a, b => .ok (a * b)
  | .div, a, b => if b = 0 then .error .zeroDivision else .ok (a / b)
  | .pow, a, b =>
      if b.den = 1 then
        if a = 0 ∧ b.num < 0 then .error .zeroDivision else .ok (a ^ b.num)
      else .error .domainError

/-- Elementwise combination of two equal-length arrays; a length mismatch
is the error the array type itself raises. -/
def zipScalar (op : BinOp) : List Rat → List Rat → Except PyError (List Rat)
  | [], [] => .ok []
  | a :: as, b :: bs => do
      let x ← scalarOp op a b
      let xs ← zipScalar op as bs
      .ok (x :: xs)
  | _, _ => .error .shapeMismatch

/-- Broadcast a scalar on the right of each array element. -/
def mapScalarR (op : BinOp) (xs : List Rat) (s : Rat) :
    Except PyError (List Rat) :=
  match xs with
  | [] => .ok []
  | a :: as => do
      let x ← scalarOp op a s
      let rest ← mapScalarR op as s
      .ok (x :: rest)

/-- Broadcast a scalar on the left of each array element. -/
def mapScalarL (op : BinOp) (s : Rat) (xs : List Rat) :
    Except PyError (List Rat) :=
  match xs with
  | [] => .ok []
  | a :: as => do
      let x ← scalarOp op s a
      let rest ← mapScalarL op s as
      .ok (x :: rest)

/-- The numeric payload of a scalar value. -/
def PVal.toRat : PVal → Rat
  | .pint n => (n : Rat)
  | .pfloat q => q
  | .plist _ => 0
  | .parr _ => 0

/-- Late-bound operator dispatch over the dynamic value types, with the
semantics of the types themselves: int-int stays int except under true
division; int-float mixes promote to float; lists do not implement
elementwise arithmetic (their `+` concatenates, every other operator
raises TypeError); arrays broadcast against scalars and combine
elementwise against equal-length arrays. -/
def PVal.binop (op : BinOp) (l r : PVal) : Except PyError PVal :=
  match l, r with
  | .pint a, .pint b =>
      match op with
      | .add => .ok (.pint (a + b))
      | .sub => .ok (.pint (a - b))
      | .mul => .ok (.pint (a * b))
      | .div =>
          if b = 0 then .error .zeroDivision
          else .ok (.pfloat ((a : Rat) / (b : Rat)))
      | .pow =>
          if 0 ≤ b then .ok (.pint (a ^ b.toNat))
          else if a = 0 then .error .zeroDivision
          else .ok (.pfloat ((a : Rat) ^ b))
  | .pint a, .pfloat b => (scalarOp op (a : Rat) b).map .pfloat
  | .pfloat a, .pint b => (scalarOp op a (b : Rat)).map .pfloat
  | .pfloat a, .pfloat b => (scalarOp op a b).map .pfloat
  | .plist a, .plist b =>
      match op with
      | .add => .ok (.plist (a ++ b))
      | _ => .error (.typeError op.symbol "list" "list")
  | .parr a, .parr b => (zipScalar op a b).map .parr
  | .parr a, .pint b => (mapScalarR op a (b : Rat)).map .parr
  | .parr a, .pfloat b => (mapScalarR op a b).map .parr
  | .pint a, .parr b => (mapScalarL op (a : Rat) b).map .parr
  | .pfloat a, .parr b => (mapScalarL op a b).map .parr
  | l, r => .error (.typeError op.symbol l.typeName r.typeName)

/-- Formula expression: numeric (float) literals, symbol references, and
the five binary operators with explicit structure (the catalog formula
strings are parsed once into this AST). -/
inductive Expr where
  | lit : Rat → Expr
  | sym : String → Expr
  | bin : BinOp → Expr → Expr → Expr
  deriving DecidableEq

/-- The symbols referenced by a formula. -/
def Expr.symbols : Expr → List String
  | .lit _ => []
  | .sym s => [s]
  | .bin _ a b => a.symbols ++ b.symbols

/-- A binding set: association of symbol names to dynamic values. First
occurrence of a key wins on lookup. -/
abbrev Bindings := List (String × PVal)

/-- Look up a symbol in a binding set. -/
def lookupB (bs : Bindings) (s : String) : Option PVal :=
  match bs with
  | [] => none
  | (k, v) :: rest => if k = s then some v else lookupB rest s

/-- Modelled from the spec: `evaluate(formula, bindings)`. Substitutes
bindings into the expression, applying the bound values own arithmetic;
a missing symbol reference is a NameError (guaranteed by the resolver
never to be reached). -/
def Expr.eval (bs : Bindings) : Expr → Except PyError PVal
  | .lit q => .ok (.pfloat q)
  | .sym s =>
      match lookupB bs s with
      | some v => .ok v
      | none => .error (.nameError s)
  | .bin op a b => do
      let va ← a.eval bs
      let vb ← b.eval bs
      PVal.binop op va vb

/-- An index (or kernel) definition: name, parsed formula, ordered
required symbols, and display metadata. Constructed once from the catalog
at load time; read-only thereafter. -/
structure IndexDef where
  name : String
  long_name : String
  formula : Expr
  bands : List String
  deriving DecidableEq

/-- NDVI, formula `(N - R) / (N + R)`, as shown by
`spyndex.indices.NDVI` in the tutorial. -/
def NDVI : IndexDef :=
  { name := "NDVI"
    long_name := "Normalized Difference Vegetation Index"
    formula := .bin .div (.bin .sub (.sym "N") (.sym "R"))
      (.bin .add (.sym "N") (.sym "R"))
    bands := ["N", "R"] }

/-- SAVI, formula `(1.0 + L) * (N - R) / (N + R + L)`, required symbols
`(L, N, R)` as shown by `spyndex.indices.SAVI.bands` in the tutorial. -/
def SAVI : IndexDef :=
  { name := "SAVI"
    long_name := "Soil-Adjusted Vegetation Index"
    formula := .bin .div
      (.bin .mul (.bin .add (.lit 1) (.sym "L"))
        (.bin .sub (.sym "N") (.sym "R")))
      (.bin .add (.bin .add (.sym "N") (.sym "R")) (.sym "L"))
    bands := ["L", "N", "R"] }

/-- EVI, formula `g * (N - R) / (N + C1 * R - C2 * B + L)`: an index
whose required symbols include several registered constants. -/
def EVI : IndexDef :=
  { name := "EVI"
    long_name := "Enhanced Vegetation Index"
    formula := .bin .div (.bin .mul (.sym "g") (.bin .sub (.sym "N") (.sym "R")))
      (.bin .add
        (.bin .sub (.bin .add (.sym "N") (.bin .mul (.sym "C1") (.sym "R")))
          (.bin .mul (.sym "C2") (.sym "B")))
        (.sym "L"))
    bands := ["B", "C1", "C2", "L", "N", "R", "g"] }

/-- The index catalog: loaded once, immutable thereafter. -/
def indicesCatalog : List IndexDef := [NDVI, SAVI, EVI]

/-- The linear kernel `a * b`. -/
def kernelLinear : IndexDef :=
  { name := "linear"
    long_name := "Linear Kernel"
    formula := .bin .mul (.sym "a") (.sym "b")
    bands := ["a", "b"] }

/-- The polynomial kernel `((a * b) + c) ** p`. -/
def kernelPoly : IndexDef :=
  { name := "poly"
    long_name := "Polynomial Kernel"
    formula := .bin .pow (.bin .add (.bin .mul (.sym "a") (.sym "b")) (.sym "c"))
      (.sym "p")
    bands := ["a", "b", "c", "p"] }

/-- The kernel catalog, separate from the index catalog. -/
def kernelsCatalog : List IndexDef := [kernelLinear, kernelPoly]

/-- Registered constants with their catalog default values: the
canopy-background adjustment L, the gain factor g, the coefficients C1 and
C2, and the kernel parameters c and p. -/
def constantsCatalog : List (String × Rat) :=
  [("L", 1), ("g", 2.5), ("C1", 6), ("C2", 7.5), ("c", 1), ("p", 2)]

/-- Catalog lookup of an index (or kernel) definition by name. -/
def lookupIndex (cat : List IndexDef) (n : String) : Option IndexDef :=
  match cat with
  | [] => none
  | d :: rest => if d.name = n then some d else lookupIndex rest n

/-- Catalog lookup of a registered constant default. -/
def lookupConst (consts : List (String × Rat)) (s : String) : Option Rat :=
  match consts with
  | [] => none
  | (k, v) :: rest => if k = s then some v else lookupConst rest s

/-- Modelled from the spec merge policy: keyword-supplied values take
precedence over positional-dict values for the same symbol name. -/
def mergeParams (params kwargs : Bindings) : Bindings :=
  kwargs ++ params

/-- The binding a symbol resolves to for evaluation: the merged
caller-supplied value when present, else the registered constant default,
else nothing. -/
def resolvedLookup (consts : List (String × Rat)) (merged : Bindings)
    (s : String) : Option PVal :=
  match lookupB merged s with
  | some v => some v
  | none => (lookupConst consts s).map (fun d => PVal.pfloat d)

/-- Catalog well-formedness of one definition: the formula references
only its declared required symbols. -/
def IndexDef.wf (d : IndexDef) : Bool :=
  d.formula.symbols.all (fun s => d.bands.contains s)

/-- Every value of a binding set is a scalar number. -/
def allScalar (bs : Bindings) : Bool :=
  bs.all (fun p => p.2.isScalar)

/-- The binding default-filling contributes for one required symbol:
nothing when the symbol is already bound after the merge or is not a
registered constant, the catalog default otherwise. -/
def fillFun (merged : Bindings) (consts : List (String × Rat))
    (s : String) : Option (String × PVal) :=
  if (lookupB merged s).isSome then none
  else match lookupConst consts s with
    | some d => some (s, PVal.pfloat d)
    | none => none

/-- Modelled from the spec default-filling step: for each required symbol
not present after the merge, a registered constant is filled with its
catalog default; a band is left unresolved. -/
def fillDefaults (required : List String) (merged : Bindings)
    (consts : List (String × Rat)) : Bindings :=
  merged ++ required.filterMap (fillFun merged consts)

/-- The required symbols of one definition that have no binding. -/
def missingOf (d : IndexDef) (bs : Bindings) : List String :=
  d.bands.filter (fun s => (lookupB bs s).isNone)

/-- Modelled from the spec validation step: every required symbol of every
definition in the batch must have a binding after merging and
default-filling; otherwise MissingParameter names the definition and its
missing symbols. -/
def validateAll (ds : List IndexDef) (bs : Bindings) : Except PyError Unit :=
  match ds with
  | [] => .ok ()
  | d :: rest =>
      if missingOf d bs = [] then validateAll rest bs
      else .error (.missingParameter d.name (missingOf d bs))

/-- Look up every requested name in the catalog, in order; an absent name
is an UnknownName error. -/
def lookupDefs (cat : List IndexDef) (names : List String) :
    Except PyError (List IndexDef) :=
  match names with
  | [] => .ok []
  | n :: rest =>
      match lookupIndex cat n with
      | some d => do
          let ds ← lookupDefs cat rest
          .ok (d :: ds)
      | none => .error (.unknownName n)

/-- A computation result: a bare single value, an ordered sequence of
per-name values, or a composite stacked along a new label axis (each
label paired with the row sliced out at that label). -/
inductive ComputationResult where
  | single : PVal → ComputationResult
  | seq : List PVal → ComputationResult
  | stacked : List (String × List Rat) → ComputationResult
  deriving DecidableEq

/-- The array payload of a value, when the value is an array. -/
def asArr : PVal → Option (List Rat)
  | .parr xs => some xs
  | _ => none

/-- Whether every row has the given length. -/
def allLen (n : Nat) : List (List Rat) → Bool
  | [] => true
  | r :: rs => r.length == n && allLen n rs

/-- The array payloads of all values, when every value is an array. -/
def arrRows : List PVal → Option (List (List Rat))
  | [] => some []
  | v :: vs =>
      match asArr v, arrRows vs with
      | some r, some rs => some (r :: rs)
      | _, _ => none

/-- Modelled from the spec result assembly: combine per-name values into
one composite labeled by name when the value type supports labeled
stacking (all values are arrays of one common shape); otherwise fall back
to the ordered sequence of per-name values. -/
def assemble (names : List String) (vs : List PVal) : ComputationResult :=
  match arrRows vs with
  | some rows =>
      match rows with
      | [] => .seq vs
      | r :: rs =>
          if allLen r.length rs then .stacked (names.zip rows)
          else .seq vs
  | none => .seq vs

/-- Evaluate each definition of the batch, in order, against the shared
resolved binding set. -/
def evalDefs (bs : Bindings) (ds : List IndexDef) :
    Except PyError (List PVal) :=
  match ds with
  | [] => .ok []
  | d :: rest => do
      let v ← d.formula.eval bs
      let vs ← evalDefs bs rest
      .ok (v :: vs)

/-- Modelled from the spec batch orchestrator `computeMany`, after the
positional/keyword merge: look up the definitions, default-fill
registered constants over the union of required symbols, validate the
whole batch, then evaluate each formula in order and assemble the result
(bare value for one name, stacked composite or ordered sequence for
several). Alongside the result it reports the formulas actually
evaluated, so that fail-fast behaviour is observable: a validation
failure evaluates nothing. -/
def computeMergedT (cat : List IndexDef) (consts : List (String × Rat))
    (names : List String) (merged : Bindings) :
    Except PyError ComputationResult × List Expr :=
  match lookupDefs cat names with
  | .error e => (.error e, [])
  | .ok ds =>
      let bs := fillDefaults (ds.map (fun d => d.bands)).flatten merged consts
      match validateAll ds bs with
      | .error e => (.error e, [])
      | .ok _ =>
          match evalDefs bs ds with
          | .error e => (.error e, ds.map (fun d => d.formula))
          | .ok vs =>
              match vs with
              | [v] => (.ok (.single v), ds.map (fun d => d.formula))
              | _ => (.ok (assemble names vs), ds.map (fun d => d.formula))

/-- The orchestrator on positional and keyword parameters: merge, then
run on the merged binding set. -/
def computeManyT (cat : List IndexDef) (consts : List (String × Rat))
    (names : List String) (params kwargs : Bindings) :
    Except PyError ComputationResult × List Expr :=
  computeMergedT cat consts names (mergeParams params kwargs)

/-- The batch orchestrator result, without the evaluation trace. -/
def computeMany (cat : List IndexDef) (consts : List (String × Rat))
    (names : List String) (params kwargs : Bindings) :
    Except PyError ComputationResult :=
  (computeManyT cat consts names params kwargs).1

/-- The first argument of `computeIndex`: a single index name or an
ordered list of names. -/
inductive IndexArg where
  | one : String → IndexArg
  | many : List String → IndexArg
  deriving DecidableEq

/-- The list of requested names (a bare name is a one-element batch). -/
def IndexArg.names : IndexArg → List String
  | .one n => [n]
  | .many ns => ns

/-- `computeIndex(index, params, **kwargs)` over the index catalog. -/
def computeIndex (index : IndexArg) (params : Bindings)
    (kwargs : Bindings) : Except PyError ComputationResult :=
  computeMany indicesCatalog constantsCatalog index.names params kwargs

/-- `computeKernel(kernel, params, **kwargs)` over the kernel catalog:
structurally identical to index computation, drawing from the separate
kernel catalog. -/
def computeKernel (kernel : IndexArg) (params : Bindings)
    (kwargs : Bindings) : Except PyError ComputationResult :=
  computeMany kernelsCatalog constantsCatalog kernel.names params kwargs

/-- Slice a stacked composite at a label. -/
def ComputationResult.labelSlice (r : ComputationResult) (label : String) :
    Option PVal :=
  match r with
  | .stacked rows =>
      match lookupB (rows.map (fun p => (p.1, PVal.parr p.2))) label with
      | some v => some v
      | none => none
  | _ => none

/-- The labels of the stacking axis of a composite. -/
def ComputationResult.labels (r : ComputationResult) : List String :=
  match r with
  | .stacked rows => rows.map (fun p => p.1)
  | _ => []

/-- The mutable process state visible to a computation: the loaded index
and kernel catalogs, the registered constants, and the ambient scope a
leaked binding would land in. Modelled from the spec concurrency section:
stateless-per-call, no mutable shared resource beyond the catalog loaded
once at startup. -/
structure EvalState where
  catalog : List IndexDef
  kernels : List IndexDef
  constants : List (String × Rat)
  ambientScope : Bindings
  deriving DecidableEq

/-- The evaluator with the process state threaded through every step, so
that mutation of the catalog or leakage of a binding into the ambient
scope would be observable in the returned state. -/
def Expr.evalS : Expr → Bindings → EvalState → Except PyError PVal × EvalState
  | .lit q, _, st => (.ok (.pfloat q), st)
  | .sym s, bs, st =>
      (match lookupB bs s with
       | some v => .ok v
       | none => .error (.nameError s), st)
  | .bin op a b, bs, st =>
      match a.evalS bs st with
      | (.error e, st1) => (.error e, st1)
      | (.ok va, st1) =>
          match b.evalS bs st1 with
          | (.error e, st2) => (.error e, st2)
          | (.ok vb, st2) => (PVal.binop op va vb, st2)

/-- Batch evaluation with the process state threaded through. -/
def evalDefsS (ds : List IndexDef) (bs : Bindings) (st : EvalState) :
    Except PyError (List PVal) × EvalState :=
  match ds with
  | [] => (.ok [], st)
  | d :: rest =>
      match d.formula.evalS bs st with
      | (.error e, st1) => (.error e, st1)
      | (.ok v, st1) =>
          match evalDefsS rest bs st1 with
          | (.error e, st2) => (.error e, st2)
          | (.ok vs, st2) => (.ok (v :: vs), st2)

/-- `computeIndex` with the process state threaded through: reads the
index catalog and the constants from the state and returns the resulting
state alongside the computation result. -/
def computeIndexS (index : IndexArg) (params kwargs : Bindings)
    (st : EvalState) : Except PyError ComputationResult × EvalState :=
  match lookupDefs st.catalog index.names with
  | .error e => (.error e, st)
  | .ok ds =>
      let bs := fillDefaults (ds.map (fun d => d.bands)).flatten
        (mergeParams params kwargs) st.constants
      match validateAll ds bs with
      | .error e => (.error e, st)
      | .ok _ =>
          match evalDefsS ds bs st with
          | (.error e, st1) => (.error e, st1)
          | (.ok vs, st1) =>
              match vs with
              | [v] => (.ok (.single v), st1)
              | _ => (.ok (assemble index.names vs), st1)

/-! ### Binding-set lookup lemmas -/

theorem lookupB_cons (k : String) (w : PVal) (bs : Bindings) (s : String) :
    lookupB ((k, w) :: bs) s = if k = s then some w else lookupB bs s := rfl

theorem lookupB_append (xs ys : Bindings) (s : String) :
    lookupB (xs ++ ys) s =
      match lookupB xs s with
      | some v => some v
      | none => lookupB ys s := by
  induction xs with
  | nil => simp [lookupB]
  | cons p rest ih =>
      obtain ⟨k, w⟩ := p
      by_cases hk : k = s
      · simp [lookupB_cons, hk]
      · simp [lookupB_cons, hk, ih]

theorem lookupB_mem {bs : Bindings} {s : String} {v : PVal}
    (h : lookupB bs s = some v) : (s, v) ∈ bs := by
  induction bs with
  | nil => simp [lookupB] at h
  | cons p rest ih =>
      obtain ⟨k, w⟩ := p
      rw [lookupB_cons] at h
      by_cases hk : k = s
      · subst hk
        simp at h
        subst h
        exact List.mem_cons_self _ _
      · rw [if_neg hk] at h
        exact List.mem_cons_of_mem _ (ih h)

theorem fillFun_fst {merged : Bindings} {consts : List (String × Rat)}
    {s : String} {p : String × PVal}
    (h : fillFun merged consts s = some p) : p.1 = s := by
  unfold fillFun at h
  split at h
  · exact Option.noConfusion h
  · split at h
    · cases h
      rfl
    · exact Option.noConfusion h

theorem lookupB_fillList (merged : Bindings) (consts : List (String × Rat))
    (required : List String) (s : String) :
    lookupB (required.filterMap (fillFun merged consts)) s =
      if s ∈ required
      then (fillFun merged consts s).map (fun p => p.2)
      else none := by
  induction required with
  | nil => simp [lookupB]
  | cons t rest ih =>
      rw [List.filterMap_cons]
      by_cases ht : t = s
      · subst ht
        cases hf : fillFun merged consts t with
        | none => simp [ih, hf]
        | some p =>
            obtain ⟨k, w⟩ := p
            have hk : k = t := fillFun_fst hf
            subst hk
            simp [hf, lookupB_cons]
      · cases hf : fillFun merged consts t with
        | none => simp [ih, Ne.symm ht]
        | some p =>
            obtain ⟨k, w⟩ := p
            have hk : k = t := fillFun_fst hf
            subst hk
            simp [lookupB_cons, ht, ih, Ne.symm ht]

theorem fillDefaults_lookup_mem (required : List String) (merged : Bindings)
    (consts : List (String × Rat)) (s : String) (h : s ∈ required) :
    lookupB (fillDefaults required merged consts) s
      = resolvedLookup consts merged s := by
  unfold fillDefaults resolvedLookup
  rw [lookupB_append, lookupB_fillList, if_pos h]
  cases hm : lookupB merged s with
  | some v => simp
  | none =>
      unfold fillFun
      rw [hm]
      simp only [Option.isSome_none, Bool.false_eq_true, if_false]
      cases lookupConst consts s <;> simp

theorem fillDefaults_lookup_not (required : List String) (merged : Bindings)
    (consts : List (String × Rat)) (s : String) (h : s ∉ required) :
    lookupB (fillDefaults required merged consts) s = lookupB merged s := by
  unfold fillDefaults
  rw [lookupB_append, lookupB_fillList, if_neg h]
  cases hm : lookupB merged s <;> simp

/-! ### Evaluator lemmas -/

theorem Expr.eval_congr (e : Expr) (b1 b2 : Bindings)
    (h : ∀ s ∈ e.symbols, lookupB b1 s = lookupB b2 s) :
    e.eval b1 = e.eval b2 := by
  induction e with
  | lit q => rfl
  | sym s => simp [Expr.eval, h s (by simp [Expr.symbols])]
  | bin op a b iha ihb =>
      have ha := iha (fun s hs => h s (by simp [Expr.symbols, hs]))
      have hb := ihb (fun s hs => h s (by simp [Expr.symbols, hs]))
      simp only [Expr.eval, ha, hb]

theorem map_pfloat_ok {x : Except PyError Rat} {v : PVal}
    (h : x.map PVal.pfloat = .ok v) : ∃ q, v = PVal.pfloat q := by
  cases x with
  | error e => simp [Except.map] at h
  | ok q =>
      simp [Except.map] at h
      exact ⟨q, h.symm⟩

theorem scalar_binop {op : BinOp} {l r v : PVal}
    (hl : l.isScalar = true) (hr : r.isScalar = true)
    (h : PVal.binop op l r = .ok v) : v.isScalar = true := by
  cases l with
  | pint a =>
      cases r with
      | pint b =>
          cases op <;> simp only [PVal.binop] at h
          · cases h; rfl
          · cases h; rfl
          · cases h; rfl
          · split at h
            · exact Except.noConfusion h
            · cases h; rfl
          · split at h
            · cases h; rfl
            · split at h
              · exact Except.noConfusion h
              · cases h; rfl
      | pfloat b =>
          obtain ⟨q, hq⟩ := map_pfloat_ok h
          simp [hq, PVal.isScalar]
      | plist xs => simp [PVal.isScalar] at hr
      | parr xs => simp [PVal.isScalar] at hr
  | pfloat a =>
      cases r with
      | pint b =>
          obtain ⟨q, hq⟩ := map_pfloat_ok h
          simp [hq, PVal.isScalar]
      | pfloat b =>
          obtain ⟨q, hq⟩ := map_pfloat_ok h
          simp [hq, PVal.isScalar]
      | plist xs => simp [PVal.isScalar] at hr
      | parr xs => simp [PVal.isScalar] at hr
  | plist xs => simp [PVal.isScalar] at hl
  | parr xs => simp [PVal.isScalar] at hl

theorem eval_scalar {e : Expr} {bs : Bindings} {v : PVal}
    (hbs : allScalar bs = true) (h : e.eval bs = .ok v) :
    v.isScalar = true := by
  induction e generalizing v with
  | lit q =>
      simp only [Expr.eval] at h
      cases h
      rfl
  | sym s =>
      simp only [Expr.eval] at h
      cases hm : lookupB bs s with
      | none => rw [hm] at h; exact Except.noConfusion h
      | some w =>
          rw [hm] at h
          cases h
          exact List.all_eq_true.mp hbs _ (lookupB_mem hm)
  | bin op a b iha ihb =>
      simp only [Expr.eval, bind, Except.bind] at h
      cases ha : a.eval bs with
      | error e1 => rw [ha] at h; exact Except.noConfusion h
      | ok va =>
          rw [ha] at h
          cases hb : b.eval bs with
          | error e2 => rw [hb] at h; exact Except.noConfusion h
          | ok vb =>
              rw [hb] at h
              exact scalar_binop (iha ha) (ihb hb) h

theorem fillFun_snd_scalar {merged : Bindings} {consts : List (String × Rat)}
    {s : String} {p : String × PVal}
    (h : fillFun merged consts s = some p) : p.2.isScalar = true := by
  unfold fillFun at h
  split at h
  · exact Option.noConfusion h
  · split at h
    · cases h
      rfl
    · exact Option.noConfusion h

theorem allScalar_append {xs ys : Bindings}
    (hx : allScalar xs = true) (hy : allScalar ys = true) :
    allScalar (xs ++ ys) = true := by
  simp only [allScalar, List.all_append, Bool.and_eq_true] at *
  exact ⟨hx, hy⟩

theorem allScalar_fillDefaults {required : List String} {merged : Bindings}
    {consts : List (String × Rat)} (h : allScalar merged = true) :
    allScalar (fillDefaults required merged consts) = true := by
  unfold fillDefaults
  apply allScalar_append h
  apply List.all_eq_true.mpr
  intro p hp
  obtain ⟨s, _, hf⟩ := List.mem_filterMap.mp hp
  exact fillFun_snd_scalar hf

/-! ### Validation lemmas -/

theorem validateAll_ok_iff {ds : List IndexDef} {bs : Bindings} :
    validateAll ds bs = .ok () ↔ ∀ d ∈ ds, missingOf d bs = [] := by
  induction ds with
  | nil => simp [validateAll]
  | cons d rest ih =>
      unfold validateAll
      by_cases hm : missingOf d bs = []
      · simp [hm, ih]
      · simp [hm]

theorem validateAll_fails {ds : List IndexDef} {bs : Bindings}
    (h : ∃ d ∈ ds, missingOf d bs ≠ []) :
    ∃ d ∈ ds, missingOf d bs ≠ [] ∧
      validateAll ds bs = .error (.missingParameter d.name (missingOf d bs)) := by
  induction ds with
  | nil => simp at h
  | cons d rest ih =>
      by_cases hm : missingOf d bs = []
      · obtain ⟨d2, hd2, hne⟩ := h
        rcases List.mem_cons.mp hd2 with rfl | hmem
        · exact absurd hm hne
        · obtain ⟨d3, hd3, hne3, heq⟩ := ih ⟨d2, hmem, hne⟩
          exact ⟨d3, List.mem_cons_of_mem _ hd3, hne3, by
            unfold validateAll
            rw [if_pos hm, heq]⟩
      · exact ⟨d, List.mem_cons_self _ _, hm, by
          unfold validateAll
          rw [if_neg hm]⟩

theorem missingOf_congr {d : IndexDef} {b1 b2 : Bindings}
    (h : ∀ s ∈ d.bands, lookupB b1 s = lookupB b2 s) :
    missingOf d b1 = missingOf d b2 := by
  unfold missingOf
  exact List.filter_congr (fun s hs => by rw [h s hs])

theorem validateAll_congr {ds : List IndexDef} {b1 b2 : Bindings}
    (h : ∀ d ∈ ds, missingOf d b1 = missingOf d b2) :
    validateAll ds b1 = validateAll ds b2 := by
  induction ds with
  | nil => rfl
  | cons d rest ih =>
      unfold validateAll
      rw [h d (List.mem_cons_self _ _),
        ih (fun d2 h2 => h d2 (List.mem_cons_of_mem _ h2))]

theorem evalDefs_congr {ds : List IndexDef} {b1 b2 : Bindings}
    (h : ∀ d ∈ ds, d.formula.eval b1 = d.formula.eval b2) :
    evalDefs b1 ds = evalDefs b2 ds := by
  induction ds with
  | nil => rfl
  | cons d rest ih =>
      simp only [evalDefs]
      rw [h d (List.mem_cons_self _ _),
        ih (fun d2 h2 => h d2 (List.mem_cons_of_mem _ h2))]

/-! ### Catalog lemmas -/

theorem lookupIndex_mem {cat : List IndexDef} {n : String} {d : IndexDef}
    (h : lookupIndex cat n = some d) : d ∈ cat := by
  induction cat with
  | nil => simp [lookupIndex] at h
  | cons d0 rest ih =>
      unfold lookupIndex at h
      split at h
      · cases h
        exact List.mem_cons_self _ _
      · exact List.mem_cons_of_mem _ (ih h)

theorem lookupDefs_mem {cat : List IndexDef} {names : List String}
    {ds : List IndexDef} (h : lookupDefs cat names = .ok ds) :
    ∀ d ∈ ds, d ∈ cat := by
  induction names generalizing ds with
  | nil =>
      simp only [lookupDefs] at h
      cases h
      intro d hd
      simp at hd
  | cons n rest ih =>
      simp only [lookupDefs] at h
      cases hlk : lookupIndex cat n with
      | none => rw [hlk] at h; exact Except.noConfusion h
      | some d0 =>
          rw [hlk] at h
          cases hrec : lookupDefs cat rest with
          | error e => simp [hrec, bind, Except.bind] at h
          | ok ds0 =>
              simp only [hrec, bind, Except.bind] at h
              cases h
              intro d hd
              rcases List.mem_cons.mp hd with rfl | hmem
              · exact lookupIndex_mem hlk
              · exact ih hrec d hmem

theorem wf_symbols {d : IndexDef} (h : d.wf = true) :
    ∀ s ∈ d.formula.symbols, s ∈ d.bands := by
  intro s hs
  have hc := List.all_eq_true.mp h s hs
  simpa using hc

theorem indicesCatalog_wf : ∀ d ∈ indicesCatalog, d.wf = true := by decide

theorem kernelsCatalog_wf : ∀ d ∈ kernelsCatalog, d.wf = true := by decide

/-! ### Orchestrator lemmas -/

theorem mem_required {ds : List IndexDef} {d : IndexDef} (hd : d ∈ ds)
    {s : String} (hs : s ∈ d.bands) :
    s ∈ (ds.map (fun d => d.bands)).flatten := by
  rw [List.mem_flatten]
  exact ⟨d.bands, List.mem_map.mpr ⟨d, hd, rfl⟩, hs⟩

theorem computeMergedT_congr {cat : List IndexDef}
    {consts : List (String × Rat)} {names : List String}
    {ds : List IndexDef} {m1 m2 : Bindings}
    (hlk : lookupDefs cat names = .ok ds)
    (hwf : ∀ d ∈ ds, d.wf = true)
    (h : ∀ s ∈ (ds.map (fun d => d.bands)).flatten,
        resolvedLookup consts m1 s = resolvedLookup consts m2 s) :
    computeMergedT cat consts names m1 = computeMergedT cat consts names m2 := by
  unfold computeMergedT
  rw [hlk]
  have hlook : ∀ s ∈ (ds.map (fun d => d.bands)).flatten,
      lookupB (fillDefaults (ds.map (fun d => d.bands)).flatten m1 consts) s
        = lookupB (fillDefaults (ds.map (fun d => d.bands)).flatten m2 consts) s := by
    intro s hs
    rw [fillDefaults_lookup_mem _ _ _ _ hs, fillDefaults_lookup_mem _ _ _ _ hs,
      h s hs]
  have hval : validateAll ds
        (fillDefaults (ds.map (fun d => d.bands)).flatten m1 consts)
      = validateAll ds
        (fillDefaults (ds.map (fun d => d.bands)).flatten m2 consts) :=
    validateAll_congr (fun d hd =>
      missingOf_congr (fun s hs => hlook s (mem_required hd hs)))
  have heval : evalDefs
        (fillDefaults (ds.map (fun d => d.bands)).flatten m1 consts) ds
      = evalDefs
        (fillDefaults (ds.map (fun d => d.bands)).flatten m2 consts) ds :=
    evalDefs_congr (fun d hd =>
      Expr.eval_congr _ _ _ (fun s hs =>
        hlook s (mem_required hd (wf_symbols (hwf d hd) s hs))))
  simp only [hval, heval]

theorem computeMany_one {cat : List IndexDef} {consts : List (String × Rat)}
    {n : String} {params kwargs : Bindings} {d : IndexDef}
    (hd : lookupIndex cat n = some d) :
    computeMany cat consts [n] params kwargs =
      (match validateAll [d]
          (fillDefaults d.bands (mergeParams params kwargs) consts) with
       | .error e => .error e
       | .ok _ =>
           match d.formula.eval
              (fillDefaults d.bands (mergeParams params kwargs) consts) with
           | .error e => .error e
           | .ok v => .ok (.single v)) := by
  have hlk : lookupDefs cat [n] = .ok [d] := by
    simp [lookupDefs, hd, bind, Except.bind]
  unfold computeMany computeManyT computeMergedT
  rw [hlk]
  simp only [List.map_cons, List.map_nil, List.flatten_cons, List.flatten_nil,
    List.append_nil]
  cases hval : validateAll [d]
      (fillDefaults d.bands (mergeParams params kwargs) consts) with
  | error e => simp [hval]
  | ok u =>
      cases u
      cases hev : d.formula.eval
          (fillDefaults d.bands (mergeParams params kwargs) consts) with
      | error e => simp [hval, hev, evalDefs, bind, Except.bind]
      | ok v => simp [hval, hev, evalDefs, bind, Except.bind]

theorem computeMany_two {cat : List IndexDef} {consts : List (String × Rat)}
    {a b : String} {params kwargs : Bindings} {da db : IndexDef}
    (hda : lookupIndex cat a = some da) (hdb : lookupIndex cat b = some db)
    (hwa : da.wf = true) (hwb : db.wf = true) :
    computeMany cat consts [a, b] params kwargs =
      (match validateAll [da]
          (fillDefaults da.bands (mergeParams params kwargs) consts) with
       | .error e => .error e
       | .ok _ =>
         match validateAll [db]
            (fillDefaults db.bands (mergeParams params kwargs) consts) with
         | .error e => .error e
         | .ok _ =>
           match da.formula.eval
              (fillDefaults da.bands (mergeParams params kwargs) consts) with
           | .error e => .error e
           | .ok va =>
             match db.formula.eval
                (fillDefaults db.bands (mergeParams params kwargs) consts) with
             | .error e => .error e
             | .ok vb => .ok (assemble [a, b] [va, vb])) := by
  have hlk : lookupDefs cat [a, b] = .ok [da, db] := by
    simp [lookupDefs, hda, hdb, bind, Except.bind]
  have hsa : ∀ s ∈ da.bands,
      lookupB (fillDefaults (da.bands ++ (db.bands ++ []))
        (mergeParams params kwargs) consts) s
      = lookupB (fillDefaults da.bands (mergeParams params kwargs) consts) s := by
    intro s hs
    rw [fillDefaults_lookup_mem _ _ _ _ (by simp [hs]),
      fillDefaults_lookup_mem _ _ _ _ hs]
  have hsb : ∀ s ∈ db.bands,
      lookupB (fillDefaults (da.bands ++ (db.bands ++ []))
        (mergeParams params kwargs) consts) s
      = lookupB (fillDefaults db.bands (mergeParams params kwargs) consts) s := by
    intro s hs
    rw [fillDefaults_lookup_mem _ _ _ _ (by simp [hs]),
      fillDefaults_lookup_mem _ _ _ _ hs]
  have hma : missingOf da (fillDefaults (da.bands ++ (db.bands ++ []))
        (mergeParams params kwargs) consts)
      = missingOf da (fillDefaults da.bands (mergeParams params kwargs) consts) :=
    missingOf_congr hsa
  have hmb : missingOf db (fillDefaults (da.bands ++ (db.bands ++ []))
        (mergeParams params kwargs) consts)
      = missingOf db (fillDefaults db.bands (mergeParams params kwargs) consts) :=
    missingOf_congr hsb
  have hea : da.formula.eval (fillDefaults (da.bands ++ (db.bands ++ []))
        (mergeParams params kwargs) consts)
      = da.formula.eval (fillDefaults da.bands (mergeParams params kwargs) consts) :=
    Expr.eval_congr _ _ _ (fun s hs => hsa s (wf_symbols hwa s hs))
  have heb : db.formula.eval (fillDefaults (da.bands ++ (db.bands ++ []))
        (mergeParams params kwargs) consts)
      = db.formula.eval (fillDefaults db.bands (mergeParams params kwargs) consts) :=
    Expr.eval_congr _ _ _ (fun s hs => hsb s (wf_symbols hwb s hs))
  unfold computeMany computeManyT computeMergedT
  rw [hlk]
  simp only [List.map_cons, List.map_nil, List.flatten_cons, List.flatten_nil]
  simp only [validateAll, missingOf_congr, hma, hmb, evalDefs, bind, Except.bind,
    hea, heb]
  by_cases h1 : missingOf da
      (fillDefaults da.bands (mergeParams params kwargs) consts) = []
  · by_cases h2 : missingOf db
        (fillDefaults db.bands (mergeParams params kwargs) consts) = []
    · simp only [h1, h2, if_pos, if_true]
      cases hva : da.formula.eval
          (fillDefaults da.bands (mergeParams params kwargs) consts) with
      | error e => simp [h1, h2, hva]
      | ok va =>
          cases hvb : db.formula.eval
              (fillDefaults db.bands (mergeParams params kwargs) consts) with
          | error e => simp [h1, h2, hva, hvb]
          | ok vb => simp [h1, h2, hva, hvb]
    · simp [h1, h2]
  · simp [h1]

/-! ### State-threading lemmas -/

theorem evalS_spec (e : Expr) (bs : Bindings) (st : EvalState) :
    e.evalS bs st = (e.eval bs, st) := by
  induction e generalizing st with
  | lit q => rfl
  | sym s => rfl
  | bin op a b iha ihb =>
      simp only [Expr.evalS, iha, ihb]
      cases ha : a.eval bs with
      | error e1 => simp [Expr.eval, ha, bind, Except.bind]
      | ok va =>
          cases hb : b.eval bs with
          | error e2 => simp [Expr.eval, ha, hb, bind, Except.bind]
          | ok vb => simp [Expr.eval, ha, hb, bind, Except.bind]

theorem evalDefsS_spec (ds : List IndexDef) (bs : Bindings) (st : EvalState) :
    evalDefsS ds bs st = (evalDefs bs ds, st) := by
  induction ds generalizing st with
  | nil => rfl
  | cons d rest ih =>
      simp only [evalDefsS, evalS_spec, ih]
      cases hv : d.formula.eval bs with
      | error e => simp [evalDefs, hv, bind, Except.bind]
      | ok v =>
          cases hr : evalDefs bs rest with
          | error e => simp [evalDefs, hv, hr, bind, Except.bind]
          | ok vs => simp [evalDefs, hv, hr, bind, Except.bind]

theorem computeIndexS_spec (index : IndexArg) (params kwargs : Bindings)
    (st : EvalState) :
    computeIndexS index params kwargs st
      = (computeMany st.catalog st.constants index.names params kwargs, st) := by
  unfold computeIndexS computeMany computeManyT computeMergedT
  cases hlk : lookupDefs st.catalog index.names with
  | error e => simp [hlk]
  | ok ds =>
      simp only [hlk]
      cases hval : validateAll ds
          (fillDefaults (ds.map (fun d => d.bands)).flatten
            (mergeParams params kwargs) st.constants) with
      | error e => simp [hval]
      | ok u =>
          cases u
          simp only [hval, evalDefsS_spec]
          cases hev : evalDefs
              (fillDefaults (ds.map (fun d => d.bands)).flatten
                (mergeParams params kwargs) st.constants) ds with
          | error e => simp
          | ok vs => rcases vs with _ | ⟨v, _ | ⟨v2, rest⟩⟩ <;> simp

/-! ### Claim theorems -/

/-- Claim C2: `computeIndex("NDVI", paramsN R)` with plain scalar numbers
N = 0.6723 and R = 0.1243 evaluates `(N - R) / (N + R)` to the exact
rational 2740/3983, which is within 10^-10 of the documented output
0.6879236756213909. -/
theorem computeIndex_ndvi_concrete_value :
    computeIndex (.one "NDVI")
        [("N", .pfloat 0.6723), ("R", .pfloat 0.1243)] []
      = .ok (.single (.pfloat (2740 / 3983)))
    ∧ |(2740 / 3983 : Rat) - 0.6879236756213909| < 1 / 10 ^ 10 := by
  constructor
  · simp +decide [computeIndex, computeMany, computeManyT, computeMergedT,
      lookupDefs, lookupIndex, indicesCatalog, NDVI, SAVI, EVI, mergeParams,
      fillDefaults, fillFun, lookupB, lookupConst, constantsCatalog,
      validateAll, missingOf, evalDefs, Expr.eval, PVal.binop, scalarOp,
      bind, Except.bind, Except.map, assemble, IndexArg.names]
    norm_num
  · rw [abs_lt]
    constructor <;> norm_num

/-- Claim C10: with integer scalar inputs N = 6723 and R = 1243, NDVI
comes back as a float (the exact rational 2740/3983 tagged pfloat), not
an int: integer true division promotes. In general, dividing one Python
int value by another yields either the division-by-zero error or a
float-tagged result, never an int. -/
theorem computeIndex_int_inputs_promote_to_float :
    computeIndex (.one "NDVI") [("N", .pint 6723), ("R", .pint 1243)] []
      = .ok (.single (.pfloat (2740 / 3983)))
    ∧ ∀ a b : Int,
        PVal.binop .div (.pint a) (.pint b) = .error .zeroDivision
        ∨ ∃ q : Rat, PVal.binop .div (.pint a) (.pint b) = .ok (.pfloat q) := by
  constructor
  · simp +decide [computeIndex, computeMany, computeManyT, computeMergedT,
      lookupDefs, lookupIndex, indicesCatalog, NDVI, SAVI, EVI, mergeParams,
      fillDefaults, fillFun, lookupB, lookupConst, constantsCatalog,
      validateAll, missingOf, evalDefs, Expr.eval, PVal.binop, scalarOp,
      bind, Except.bind, Except.map, assemble, IndexArg.names]
    norm_num
  · intro a b
    by_cases hb : b = 0
    · left
      simp [PVal.binop, hb]
    · right
      exact ⟨(a : Rat) / (b : Rat), by simp [PVal.binop, hb]⟩

/-- Claim C8: computation is deterministic and side-effect-free. Threading
the process state (catalogs, constants, ambient scope) through every
evaluation step, a `computeIndex` call returns the state unchanged, a
second identical call returns an identical result, and the result is the
one the pure orchestrator computes from the catalog and constants in the
state. -/
theorem computeIndexS_deterministic_and_pure :
    ∀ (st : EvalState) (index : IndexArg) (params kwargs : Bindings),
      (computeIndexS index params kwargs st).2 = st
      ∧ (computeIndexS index params kwargs
            ((computeIndexS index params kwargs st).2)).1
          = (computeIndexS index params kwargs st).1
      ∧ (computeIndexS index params kwargs st).1
          = computeMany st.catalog st.constants index.names params kwargs := by
  intro st index params kwargs
  simp [computeIndexS_spec]

/-- Claim C9: errors raised by the bound value types propagate to the
caller unmodified. At the expression level, an operator error on
evaluated operands is the error of the whole expression; at the batch
level, whatever error batch evaluation produces is the error
`computeMany` returns, untouched. The witness reproduces the tutorial
scenario: list operands make the subtraction in NDVI raise the raw
TypeError for `-` on list and list. -/
theorem computeMany_propagates_operand_errors :
    (∀ (bs : Bindings) (op : BinOp) (a b : Expr) (va vb : PVal)
        (e : PyError),
        a.eval bs = .ok va → b.eval bs = .ok vb →
        PVal.binop op va vb = .error e →
        (Expr.bin op a b).eval bs = .error e)
    ∧ (∀ (cat : List IndexDef) (consts : List (String × Rat))
        (names : List String) (params kwargs : Bindings)
        (ds : List IndexDef) (e : PyError),
        lookupDefs cat names = .ok ds →
        validateAll ds (fillDefaults (ds.map (fun d => d.bands)).flatten
          (mergeParams params kwargs) consts) = .ok () →
        evalDefs (fillDefaults (ds.map (fun d => d.bands)).flatten
          (mergeParams params kwargs) consts) ds = .error e →
        computeMany cat consts names params kwargs = .error e) := by
  constructor
  · intro bs op a b va vb e ha hb hop
    simp [Expr.eval, ha, hb, hop, bind, Except.bind]
  · intro cat consts names params kwargs ds e hlk hval heval
    unfold computeMany computeManyT computeMergedT
    rw [hlk]
    simp only [hval, heval]

/-- Witness for C9, the tutorial scenario: NDVI and SAVI over Python list
operands fail with the TypeError that list subtraction itself raises,
passed through unmodified. -/
theorem computeMany_propagates_operand_errors_witness :
    computeMany indicesCatalog constantsCatalog ["NDVI", "SAVI"]
        [("N", .plist [0.634, 0.654, 0.567]),
         ("R", .plist [0.123, 0.156, 0.198]), ("L", .pfloat 0.5)] []
      = .error (.typeError "-" "list" "list") := by
  apply computeMany_propagates_operand_errors.2 _ _ _ _ _ [NDVI, SAVI] <;>
    simp +decide [lookupDefs, lookupIndex, indicesCatalog, NDVI, SAVI, EVI,
      mergeParams, fillDefaults, fillFun, lookupB, lookupConst,
      constantsCatalog, validateAll, missingOf, evalDefs, Expr.eval,
      PVal.binop, scalarOp, BinOp.symbol, bind, Except.bind, Except.map]

/-- Claim C6: when, after merging and default-filling, some required
symbol of some requested definition lacks a binding, the whole batch
fails with a MissingParameter error naming a definition and its missing
symbols, and the evaluation trace is empty: no formula of the batch is
evaluated, so no arithmetic is attempted and no partial result exists.
`computeIndex` is this orchestrator over the index catalog. -/
theorem computeMany_missing_parameter_fail_fast :
    (∀ (cat : List IndexDef) (consts : List (String × Rat))
        (names : List String) (params kwargs : Bindings) (ds : List IndexDef),
        lookupDefs cat names = .ok ds →
        (∃ d ∈ ds, missingOf d (fillDefaults (ds.map (fun d => d.bands)).flatten
            (mergeParams params kwargs) consts) ≠ []) →
        ∃ d ∈ ds,
          missingOf d (fillDefaults (ds.map (fun d => d.bands)).flatten
            (mergeParams params kwargs) consts) ≠ []
          ∧ computeManyT cat consts names params kwargs
              = (.error (.missingParameter d.name
                  (missingOf d (fillDefaults (ds.map (fun d => d.bands)).flatten
                    (mergeParams params kwargs) consts))), []))
    ∧ (∀ (index : IndexArg) (params kwargs : Bindings),
        computeIndex index params kwargs
          = (computeManyT indicesCatalog constantsCatalog
              index.names params kwargs).1) := by
  refine ⟨?_, fun _ _ _ => rfl⟩
  intro cat consts names params kwargs ds hlk hex
  obtain ⟨d, hd, hne, heq⟩ := validateAll_fails hex
  refine ⟨d, hd, hne, ?_⟩
  unfold computeManyT computeMergedT
  rw [hlk]
  simp only [heq]

/-- Witness for C6: requesting NDVI while supplying only N fails with
MissingParameter naming NDVI and the missing symbol R, with an empty
evaluation trace. -/
theorem computeMany_missing_parameter_fail_fast_witness :
    ∃ d ∈ [NDVI],
      missingOf d (fillDefaults ([NDVI].map (fun d => d.bands)).flatten
        (mergeParams [("N", PVal.pfloat 0.6)] []) constantsCatalog) ≠ []
      ∧ computeManyT indicesCatalog constantsCatalog ["NDVI"]
          [("N", PVal.pfloat 0.6)] []
        = (.error (.missingParameter d.name
            (missingOf d (fillDefaults ([NDVI].map (fun d => d.bands)).flatten
              (mergeParams [("N", PVal.pfloat 0.6)] []) constantsCatalog))), []) := by
  apply computeMany_missing_parameter_fail_fast.1
  · simp +decide [lookupDefs, lookupIndex, indicesCatalog, NDVI, SAVI, EVI,
      bind, Except.bind]
  · exact ⟨NDVI, by simp, by decide⟩

/-- Claim C4: keyword-supplied values take precedence over
positional-dict values for the same symbol name. A symbol present in the
keyword arguments keeps its keyword value through the merge, and keeps it
through default-filling, so that value is the binding evaluation sees;
`computeIndex` and `computeKernel` both run on exactly this merged
binding set. -/
theorem computeIndex_keyword_precedence :
    (∀ (params kwargs : Bindings) (s : String) (v : PVal),
        lookupB kwargs s = some v →
        lookupB (mergeParams params kwargs) s = some v)
    ∧ (∀ (consts : List (String × Rat)) (required : List String)
        (params kwargs : Bindings) (s : String) (v : PVal),
        s ∈ required → lookupB kwargs s = some v →
        lookupB (fillDefaults required (mergeParams params kwargs) consts) s
          = some v)
    ∧ (∀ (index : IndexArg) (params kwargs : Bindings),
        computeIndex index params kwargs
          = (computeMergedT indicesCatalog constantsCatalog index.names
              (mergeParams params kwargs)).1)
    ∧ (∀ (kernel : IndexArg) (params kwargs : Bindings),
        computeKernel kernel params kwargs
          = (computeMergedT kernelsCatalog constantsCatalog kernel.names
              (mergeParams params kwargs)).1) := by
  refine ⟨?_, ?_, fun _ _ _ => rfl, fun _ _ _ => rfl⟩
  · intro params kwargs s v h
    unfold mergeParams
    rw [lookupB_append, h]
  · intro consts required params kwargs s v hs h
    rw [fillDefaults_lookup_mem _ _ _ _ hs]
    unfold resolvedLookup mergeParams
    rw [lookupB_append, h]

/-- Witness for C4: N supplied both positionally (as 0.2) and by keyword
(as 0.9) resolves to the keyword value 0.9, both after the merge and in
the binding set evaluation uses. -/
theorem computeIndex_keyword_precedence_witness :
    lookupB (mergeParams [("N", PVal.pfloat 0.2), ("R", PVal.pfloat 0.1)]
        [("N", PVal.pfloat 0.9)]) "N" = some (PVal.pfloat 0.9)
    ∧ lookupB (fillDefaults ["N", "R"]
        (mergeParams [("N", PVal.pfloat 0.2), ("R", PVal.pfloat 0.1)]
          [("N", PVal.pfloat 0.9)]) constantsCatalog) "N"
      = some (PVal.pfloat 0.9) := by
  constructor
  · exact computeIndex_keyword_precedence.1 _ _ _ _ (by simp [lookupB])
  · exact computeIndex_keyword_precedence.2.1 _ _ _ _ _ _ (by decide)
      (by simp [lookupB])

/-- Claim C5: a required symbol that is a registered constant with
catalog default D may be omitted: the call computes the same result as
with the constant explicitly bound to D. A required symbol that is not a
registered constant is never default-filled: after default-filling its
binding is exactly its binding after the merge, so an unsupplied band
stays unresolved. -/
theorem computeIndex_constant_defaults :
    (∀ (index : IndexArg) (params kwargs : Bindings) (s : String) (D : Rat)
        (ds : List IndexDef),
        lookupDefs indicesCatalog index.names = .ok ds →
        lookupConst constantsCatalog s = some D →
        lookupB (mergeParams params kwargs) s = none →
        computeIndex index ((s, PVal.pfloat D) :: params) kwargs
          = computeIndex index params kwargs)
    ∧ (∀ (required : List String) (merged : Bindings) (s : String),
        lookupConst constantsCatalog s = none →
        lookupB (fillDefaults required merged constantsCatalog) s
          = lookupB merged s) := by
  constructor
  · intro index params kwargs s D ds hlk hD hnone
    have hmerge : lookupB kwargs s = none ∧ lookupB params s = none := by
      unfold mergeParams at hnone
      rw [lookupB_append] at hnone
      cases hk : lookupB kwargs s with
      | some v => rw [hk] at hnone; exact Option.noConfusion hnone
      | none => rw [hk] at hnone; exact ⟨rfl, hnone⟩
    have hcong : ∀ t ∈ (ds.map (fun d => d.bands)).flatten,
        resolvedLookup constantsCatalog
          (mergeParams ((s, PVal.pfloat D) :: params) kwargs) t
        = resolvedLookup constantsCatalog (mergeParams params kwargs) t := by
      intro t _
      unfold resolvedLookup mergeParams
      rw [lookupB_append, lookupB_append]
      by_cases hts : s = t
      · subst hts
        rw [hmerge.1, hmerge.2, lookupB_cons, if_pos rfl, hD]
        rfl
      · rw [lookupB_cons, if_neg hts]
    show computeMany _ _ _ _ _ = computeMany _ _ _ _ _
    unfold computeMany computeManyT
    rw [computeMergedT_congr hlk
      (fun d hd => indicesCatalog_wf d (lookupDefs_mem hlk d hd)) hcong]
  · intro required merged s hc
    by_cases hmem : s ∈ required
    · rw [fillDefaults_lookup_mem _ _ _ _ hmem]
      unfold resolvedLookup
      cases hm : lookupB merged s with
      | some v => rfl
      | none => rw [hc]; rfl
    · exact fillDefaults_lookup_not _ _ _ _ hmem

/-- Witness for C5: SAVI requires the constant L, whose catalog default
is 1; omitting L computes the same result as supplying L = 1 explicitly,
and that shared result is the value 5480/8983; the band symbol N, not a
registered constant, is not filled in by default-filling. -/
theorem computeIndex_constant_defaults_witness :
    computeIndex (.one "SAVI")
        [("L", PVal.pfloat 1), ("N", PVal.pfloat 0.6723),
         ("R", PVal.pfloat 0.1243)] []
      = computeIndex (.one "SAVI")
        [("N", PVal.pfloat 0.6723), ("R", PVal.pfloat 0.1243)] []
    ∧ computeIndex (.one "SAVI")
        [("N", PVal.pfloat 0.6723), ("R", PVal.pfloat 0.1243)] []
      = .ok (.single (.pfloat (5480 / 8983)))
    ∧ lookupB (fillDefaults ["N", "R"] [("R", PVal.pfloat 0.1)]
        constantsCatalog) "N" = none := by
  refine ⟨?_, ?_, ?_⟩
  · exact computeIndex_constant_defaults.1 (.one "SAVI") _ [] "L" 1 [SAVI]
      (by simp +decide [lookupDefs, lookupIndex, indicesCatalog, NDVI, SAVI,
        EVI, IndexArg.names, bind, Except.bind])
      (by decide) (by decide)
  · simp +decide [computeIndex, computeMany, computeManyT, computeMergedT,
      lookupDefs, lookupIndex, indicesCatalog, NDVI, SAVI, EVI, mergeParams,
      fillDefaults, fillFun, lookupB, lookupConst, constantsCatalog,
      validateAll, missingOf, evalDefs, Expr.eval, PVal.binop, scalarOp,
      bind, Except.bind, Except.map, assemble, IndexArg.names]
    norm_num
  · exact computeIndex_constant_defaults.2 ["N", "R"] _ "N" (by decide)

/-- Claim C7: a supplied symbol that no requested definition requires is
accepted and ignored: adding it to the parameter dict changes neither
success nor value of the computation. -/
theorem computeIndex_ignores_unused_symbols :
    ∀ (index : IndexArg) (params kwargs : Bindings) (u : String) (v : PVal)
      (ds : List IndexDef),
      lookupDefs indicesCatalog index.names = .ok ds →
      u ∉ (ds.map (fun d => d.bands)).flatten →
      computeIndex index ((u, v) :: params) kwargs
        = computeIndex index params kwargs := by
  intro index params kwargs u v ds hlk hu
  have hcong : ∀ t ∈ (ds.map (fun d => d.bands)).flatten,
      resolvedLookup constantsCatalog (mergeParams ((u, v) :: params) kwargs) t
      = resolvedLookup constantsCatalog (mergeParams params kwargs) t := by
    intro t ht
    have htu : u ≠ t := fun h => hu (h ▸ ht)
    unfold resolvedLookup mergeParams
    rw [lookupB_append, lookupB_append, lookupB_cons, if_neg htu]
  show computeMany _ _ _ _ _ = computeMany _ _ _ _ _
  unfold computeMany computeManyT
  rw [computeMergedT_congr hlk
    (fun d hd => indicesCatalog_wf d (lookupDefs_mem hlk d hd)) hcong]

/-- Witness for C7: computing NDVI from a parameter dict that also
contains L (which NDVI does not use) yields the same result as computing
it without L. -/
theorem computeIndex_ignores_unused_symbols_witness :
    computeIndex (.one "NDVI")
        [("L", PVal.pfloat 0.5), ("N", PVal.pfloat 0.6723),
         ("R", PVal.pfloat 0.1243)] []
      = computeIndex (.one "NDVI")
        [("N", PVal.pfloat 0.6723), ("R", PVal.pfloat 0.1243)] [] := by
  exact computeIndex_ignores_unused_symbols (.one "NDVI") _ [] "L"
    (PVal.pfloat 0.5) [NDVI]
    (by simp +decide [lookupDefs, lookupIndex, indicesCatalog, NDVI, SAVI,
      EVI, IndexArg.names, bind, Except.bind])
    (by decide)

/-! ### Helpers for the single-name and two-name characterisations -/

theorem asArr_scalar {v : PVal} (h : v.isScalar = true) : asArr v = none := by
  cases v with
  | pint n => rfl
  | pfloat q => rfl
  | plist xs => rfl
  | parr xs => simp [PVal.isScalar] at h

theorem computeMany_unknown_head {cat : List IndexDef}
    {consts : List (String × Rat)} {n : String} {rest : List String}
    {params kwargs : Bindings} (hd : lookupIndex cat n = none) :
    computeMany cat consts (n :: rest) params kwargs
      = .error (.unknownName n) := by
  simp [computeMany, computeManyT, computeMergedT, lookupDefs, hd]

theorem computeMany_unknown_second {cat : List IndexDef}
    {consts : List (String × Rat)} {a b : String} {params kwargs : Bindings}
    {da : IndexDef} (hda : lookupIndex cat a = some da)
    (hdb : lookupIndex cat b = none) :
    computeMany cat consts [a, b] params kwargs = .error (.unknownName b) := by
  simp [computeMany, computeManyT, computeMergedT, lookupDefs, hda, hdb,
    bind, Except.bind]

theorem computeMany_one_ok {cat : List IndexDef}
    {consts : List (String × Rat)} {n : String} {params kwargs : Bindings}
    {d : IndexDef} {r : ComputationResult}
    (hd : lookupIndex cat n = some d)
    (h : computeMany cat consts [n] params kwargs = .ok r) :
    ∃ v, r = .single v
      ∧ validateAll [d]
          (fillDefaults d.bands (mergeParams params kwargs) consts) = .ok ()
      ∧ d.formula.eval
          (fillDefaults d.bands (mergeParams params kwargs) consts) = .ok v := by
  rw [computeMany_one hd] at h
  cases hval : validateAll [d]
      (fillDefaults d.bands (mergeParams params kwargs) consts) with
  | error e => simp only [hval] at h; exact Except.noConfusion h
  | ok u =>
      cases u
      simp only [hval] at h
      cases hev : d.formula.eval
          (fillDefaults d.bands (mergeParams params kwargs) consts) with
      | error e => simp only [hev] at h; exact Except.noConfusion h
      | ok v =>
          simp only [hev] at h
          cases h
          exact ⟨v, rfl, rfl, rfl⟩

theorem computeMany_one_of_ok {cat : List IndexDef}
    {consts : List (String × Rat)} {n : String} {params kwargs : Bindings}
    {d : IndexDef} {v : PVal} (hd : lookupIndex cat n = some d)
    (hval : validateAll [d]
      (fillDefaults d.bands (mergeParams params kwargs) consts) = .ok ())
    (hev : d.formula.eval
      (fillDefaults d.bands (mergeParams params kwargs) consts) = .ok v) :
    computeMany cat consts [n] params kwargs = .ok (.single v) := by
  rw [computeMany_one hd]
  simp only [hval, hev]

/-- Claim C1: with scalar-number bindings, one requested name returns the
computed value bare (a single scalar, not wrapped), and a two-name batch
returns the ordered sequence of exactly the two per-name scalar values,
first the value of the first requested name, then the value of the
second. -/
theorem computeIndex_scalar_type_preservation :
    ∀ (params kwargs : Bindings),
      allScalar params = true → allScalar kwargs = true →
      (∀ (n : String) (r : ComputationResult),
          computeIndex (.one n) params kwargs = .ok r →
          ∃ v, r = .single v ∧ v.isScalar = true)
      ∧ (∀ (a b : String) (r : ComputationResult),
          computeIndex (.many [a, b]) params kwargs = .ok r →
          ∃ va vb, r = .seq [va, vb]
            ∧ va.isScalar = true ∧ vb.isScalar = true
            ∧ computeIndex (.one a) params kwargs = .ok (.single va)
            ∧ computeIndex (.one b) params kwargs = .ok (.single vb)) := by
  intro params kwargs hp hk
  have hms : allScalar (mergeParams params kwargs) = true := allScalar_append hk hp
  constructor
  · intro n r h
    cases hd : lookupIndex indicesCatalog n with
    | none =>
        rw [show computeIndex (.one n) params kwargs
            = computeMany indicesCatalog constantsCatalog [n] params kwargs
            from rfl, computeMany_unknown_head hd] at h
        exact Except.noConfusion h
    | some d =>
        obtain ⟨v, hr, _, hev⟩ := computeMany_one_ok hd h
        exact ⟨v, hr, eval_scalar (allScalar_fillDefaults hms) hev⟩
  · intro a b r h
    replace h : computeMany indicesCatalog constantsCatalog [a, b]
        params kwargs = .ok r := h
    cases hda : lookupIndex indicesCatalog a with
    | none => rw [computeMany_unknown_head hda] at h; exact Except.noConfusion h
    | some da =>
        cases hdb : lookupIndex indicesCatalog b with
        | none =>
            rw [computeMany_unknown_second hda hdb] at h
            exact Except.noConfusion h
        | some db =>
            have hwa : da.wf = true := indicesCatalog_wf da (lookupIndex_mem hda)
            have hwb : db.wf = true := indicesCatalog_wf db (lookupIndex_mem hdb)
            rw [computeMany_two hda hdb hwa hwb] at h
            cases hval1 : validateAll [da] (fillDefaults da.bands
                (mergeParams params kwargs) constantsCatalog) with
            | error e => simp only [hval1] at h; exact Except.noConfusion h
            | ok u1 =>
            cases u1
            simp only [hval1] at h
            cases hval2 : validateAll [db] (fillDefaults db.bands
                (mergeParams params kwargs) constantsCatalog) with
            | error e => simp only [hval2] at h; exact Except.noConfusion h
            | ok u2 =>
            cases u2
            simp only [hval2] at h
            cases hev1 : da.formula.eval (fillDefaults da.bands
                (mergeParams params kwargs) constantsCatalog) with
            | error e => simp only [hev1] at h; exact Except.noConfusion h
            | ok va =>
            simp only [hev1] at h
            cases hev2 : db.formula.eval (fillDefaults db.bands
                (mergeParams params kwargs) constantsCatalog) with
            | error e => simp only [hev2] at h; exact Except.noConfusion h
            | ok vb =>
            simp only [hev2] at h
            cases h
            have hva : va.isScalar = true :=
              eval_scalar (allScalar_fillDefaults hms) hev1
            have hvb : vb.isScalar = true :=
              eval_scalar (allScalar_fillDefaults hms) hev2
            refine ⟨va, vb, ?_, hva, hvb,
              computeMany_one_of_ok hda hval1 hev1,
              computeMany_one_of_ok hdb hval2 hev2⟩
            unfold assemble
            simp [arrRows, asArr_scalar hva]

/-- Witness for C1: with the tutorial scalar bindings, NDVI alone comes
back as one bare scalar and the batch NDVI, SAVI as the ordered pair of
the two per-name scalars. -/
theorem computeIndex_scalar_type_preservation_witness :
    (∃ v, ComputationResult.single (PVal.pfloat (2740 / 3983))
        = .single v ∧ v.isScalar = true)
    ∧ (∃ va vb, ComputationResult.seq
          [PVal.pfloat (2740 / 3983), PVal.pfloat (1370 / 2161)]
        = .seq [va, vb] ∧ va.isScalar = true ∧ vb.isScalar = true
        ∧ computeIndex (.one "NDVI")
            [("N", PVal.pfloat 0.6723), ("R", PVal.pfloat 0.1243),
             ("L", PVal.pfloat 0.5)] [] = .ok (.single va)
        ∧ computeIndex (.one "SAVI")
            [("N", PVal.pfloat 0.6723), ("R", PVal.pfloat 0.1243),
             ("L", PVal.pfloat 0.5)] [] = .ok (.single vb)) := by
  have h1 : computeIndex (.one "NDVI")
      [("N", PVal.pfloat 0.6723), ("R", PVal.pfloat 0.1243),
       ("L", PVal.pfloat 0.5)] []
      = .ok (.single (PVal.pfloat (2740 / 3983))) := by
    simp +decide [computeIndex, computeMany, computeManyT,
      computeMergedT, lookupDefs, lookupIndex, indicesCatalog, NDVI,
      SAVI, EVI, mergeParams, fillDefaults, fillFun, lookupB,
      lookupConst, constantsCatalog, validateAll, missingOf, evalDefs,
      Expr.eval, PVal.binop, scalarOp, bind, Except.bind, Except.map,
      assemble, arrRows, asArr, allLen, IndexArg.names]
    norm_num
  have h2 : computeIndex (.many ["NDVI", "SAVI"])
      [("N", PVal.pfloat 0.6723), ("R", PVal.pfloat 0.1243),
       ("L", PVal.pfloat 0.5)] []
      = .ok (.seq [PVal.pfloat (2740 / 3983), PVal.pfloat (1370 / 2161)]) := by
    simp +decide [computeIndex, computeMany, computeManyT,
      computeMergedT, lookupDefs, lookupIndex, indicesCatalog, NDVI,
      SAVI, EVI, mergeParams, fillDefaults, fillFun, lookupB,
      lookupConst, constantsCatalog, validateAll, missingOf, evalDefs,
      Expr.eval, PVal.binop, scalarOp, bind, Except.bind, Except.map,
      assemble, arrRows, asArr, allLen, IndexArg.names]
    norm_num
    rfl
  constructor
  · exact (computeIndex_scalar_type_preservation
      [("N", PVal.pfloat 0.6723), ("R", PVal.pfloat 0.1243),
       ("L", PVal.pfloat 0.5)] [] (by decide) (by decide)).1 "NDVI" _ h1
  · exact (computeIndex_scalar_type_preservation
      [("N", PVal.pfloat 0.6723), ("R", PVal.pfloat 0.1243),
       ("L", PVal.pfloat 0.5)] [] (by decide) (by decide)).2 "NDVI" "SAVI" _ h2

/-- Claim C3: when both requested indices evaluate to arrays of one
common shape (array-like values supporting labeled stacking), the
two-name batch returns one stacked composite whose label axis is exactly
the two names in requested order, and slicing at each label gives the
very value the corresponding single-name call computes. -/
theorem computeIndex_labeled_stacking :
    ∀ (params kwargs : Bindings) (a b : String) (xs ys : List Rat),
      computeIndex (.one a) params kwargs = .ok (.single (.parr xs)) →
      computeIndex (.one b) params kwargs = .ok (.single (.parr ys)) →
      xs.length = ys.length →
      ∃ r, computeIndex (.many [a, b]) params kwargs = .ok r
        ∧ r.labels = [a, b]
        ∧ r.labelSlice a = some (.parr xs)
        ∧ r.labelSlice b = some (.parr ys) := by
  intro params kwargs a b xs ys ha hb hlen
  cases hda : lookupIndex indicesCatalog a with
  | none =>
      rw [show computeIndex (.one a) params kwargs
          = computeMany indicesCatalog constantsCatalog [a] params kwargs
          from rfl, computeMany_unknown_head hda] at ha
      exact Except.noConfusion ha
  | some da =>
  cases hdb : lookupIndex indicesCatalog b with
  | none =>
      rw [show computeIndex (.one b) params kwargs
          = computeMany indicesCatalog constantsCatalog [b] params kwargs
          from rfl, computeMany_unknown_head hdb] at hb
      exact Except.noConfusion hb
  | some db =>
  obtain ⟨va, hva, hval1, hev1⟩ := computeMany_one_ok hda ha
  obtain ⟨vb, hvb, hval2, hev2⟩ := computeMany_one_ok hdb hb
  have hxa : va = .parr xs := by
    have := hva
    injection this with h1
    exact h1.symm
  have hxb : vb = .parr ys := by
    have := hvb
    injection this with h1
    exact h1.symm
  subst hxa
  subst hxb
  have hwa : da.wf = true := indicesCatalog_wf da (lookupIndex_mem hda)
  have hwb : db.wf = true := indicesCatalog_wf db (lookupIndex_mem hdb)
  have hbatch : computeIndex (.many [a, b]) params kwargs
      = .ok (assemble [a, b] [.parr xs, .parr ys]) := by
    show computeMany indicesCatalog constantsCatalog [a, b] params kwargs = _
    rw [computeMany_two hda hdb hwa hwb]
    simp only [hval1, hval2, hev1, hev2]
  have hassemble : assemble [a, b] [.parr xs, .parr ys]
      = .stacked [(a, xs), (b, ys)] := by
    unfold assemble
    simp [arrRows, asArr, allLen, hlen]
  refine ⟨.stacked [(a, xs), (b, ys)], by rw [hbatch, hassemble], ?_, ?_, ?_⟩
  · simp [ComputationResult.labels]
  · simp [ComputationResult.labelSlice, lookupB_cons]
  · by_cases hab : a = b
    · subst hab
      have hxy : xs = ys := by
        rw [ha] at hb
        injection hb with h1
        injection h1 with h2
        injection h2 with h3
        try exact h3
      simp [ComputationResult.labelSlice, lookupB_cons, hxy]
    · simp [ComputationResult.labelSlice, lookupB_cons, hab]

/-- Witness for C3: NDVI and SAVI over the tutorial array inputs stack
into one composite labeled NDVI then SAVI, whose slices are the
single-name results. -/
theorem computeIndex_labeled_stacking_witness :
    ∃ r, computeIndex (.many ["NDVI", "SAVI"])
        [("N", PVal.parr [0.634, 0.654, 0.567]),
         ("R", PVal.parr [0.123, 0.156, 0.198]), ("L", PVal.pfloat 0.5)] []
      = .ok r
      ∧ r.labels = ["NDVI", "SAVI"]
      ∧ r.labelSlice "NDVI" = some (.parr [511/757, 83/135, 41/85])
      ∧ r.labelSlice "SAVI" = some (.parr [511/838, 747/1310, 1107/2530]) := by
  apply computeIndex_labeled_stacking
  · simp +decide [computeIndex, computeMany, computeManyT, computeMergedT,
      lookupDefs, lookupIndex, indicesCatalog, NDVI, SAVI, EVI, mergeParams,
      fillDefaults, fillFun, lookupB, lookupConst, constantsCatalog,
      validateAll, missingOf, evalDefs, Expr.eval, PVal.binop, scalarOp,
      zipScalar, mapScalarR, mapScalarL, bind, Except.bind, Except.map,
      assemble, IndexArg.names]
    norm_num
  · simp +decide [computeIndex, computeMany, computeManyT, computeMergedT,
      lookupDefs, lookupIndex, indicesCatalog, NDVI, SAVI, EVI, mergeParams,
      fillDefaults, fillFun, lookupB, lookupConst, constantsCatalog,
      validateAll, missingOf, evalDefs, Expr.eval, PVal.binop, scalarOp,
      zipScalar, mapScalarR, mapScalarL, bind, Except.bind, Except.map,
      assemble, IndexArg.names]
    norm_num
  · rfl

end Spyndex
